import Mathlib

/-!
Verification development for the RStudio `ConsoleProcessSocket` facade
(`src/cpp/session/SessionConsoleProcessSocket.cpp`).

The C++ class is shallowly embedded as pure Lean functions over an explicit
`SocketState`.  C++ `std::string` is modelled as `List Char` (`Str`); the
websocketpp transport layer (connection validity, low-level send results,
bind outcomes, teardown exceptions) is modelled by explicit environment
records supplied to each operation, so each operation is a deterministic
function of its state and its environment.
-/

/-- Model of `std::string`: a list of characters. -/
abbrev Str := List Char

/-- Per-connection callback set (`ConsoleProcessSocketConnectionCallbacks`).
Each `boost::function` slot is either unset (`none`) or an opaque callback
identifier (`some id`); invoking a callback is modelled by emitting an event
carrying that identifier. -/
structure ConsoleProcessSocketConnectionCallbacks where
  onConnectionOpened : Option Nat
  onConnectionClosed : Option Nat
  onReceivedInput : Option Nat
deriving DecidableEq

/-- Facade-level callback set (`ConsoleProcessSocketCallbacks`). -/
structure ConsoleProcessSocketCallbacks where
  onReceivedInput : Option Nat
deriving DecidableEq

/-- Registry record (`ConsoleProcessSocketConnectionDetails`): the stored
handle, the (non-owning) connection reference `hdl_` modelled as an opaque
identifier, and the per-connection callbacks. -/
structure ConsoleProcessSocketConnectionDetails where
  handle_ : Str
  hdl_ : Option Nat
  connectionCallbacks_ : ConsoleProcessSocketConnectionCallbacks
deriving DecidableEq

/-- Modelled from the spec: the header declaring
`ConsoleProcessSocketConnectionDetails` is not part of the sources, so the
default-constructed record follows the spec: empty handle, empty (unset)
connection reference, no callbacks registered. -/
def defaultDetails : ConsoleProcessSocketConnectionDetails :=
  ⟨[], none, ⟨none, none, none⟩⟩

/-- The connection registry: a finite map from handle to record, modelled as
an association list. -/
abbrev Registry := List (Str × ConsoleProcessSocketConnectionDetails)

/-- Association-list lookup used by the registry model. -/
def rlookup : Registry → Str → Option ConsoleProcessSocketConnectionDetails
  | [], _ => none
  | (k, v) :: rest, h => if k = h then some v else rlookup rest h

/-- Modelled from the spec: `core::thread::ThreadsafeMap::get` (the map class
is not among the sources) returns the stored value, or a default-constructed
value when the key is absent. -/
def tsGet (m : Registry) (h : Str) : ConsoleProcessSocketConnectionDetails :=
  (rlookup m h).getD defaultDetails

/-- Modelled from the spec: `ThreadsafeMap::set` stores a value under a key,
replacing any previous binding. -/
def tsSet : Registry → Str → ConsoleProcessSocketConnectionDetails → Registry
  | [], h, d => [(h, d)]
  | (k, v) :: rest, h, d =>
      if k = h then (h, d) :: rest else (k, v) :: tsSet rest h d

/-- Modelled from the spec: the removal part of `ThreadsafeMap::collect`
(get-and-remove); the returned value is discarded by the caller `stop`. -/
def tsErase : Registry → Str → Registry
  | [], _ => []
  | (k, v) :: rest, h =>
      if k = h then rest else (k, v) :: tsErase rest h

/-- Index of the last occurrence of `c`, i.e. `std::string::find_last_of`
(`none` models `npos`). -/
def find_last_of (c : Char) : Str → Option Nat
  | [] => none
  | a :: rest =>
      match find_last_of c rest with
      | some i => some (i + 1)
      | none => if a = c then some 0 else none

/-- Model of `ConsoleProcessSocket::getHandle`, string logic: the connection resource
path is passed in directly (the `get_con_from_hdl`/`get_resource` transport
step is resolved by the caller in this model). -/
def getHandle (resource : Str) : Str :=
  if resource = [] ∨ resource.getLast? ≠ some '/' then []
  else
    -- remove mandatory trailing slash (resize(length - 1))
    let r := resource.dropLast
    -- everything after remaining final slash is the handle
    match find_last_of '/' r with
    | none => []
    | some lastSlash =>
        if lastSlash + 1 ≥ r.length then [] else r.drop (lastSlash + 1)

/-- Spec-side restatement of handle resolution (for the refinement proof of
C1), phrased independently of `find_last_of`: the path must end in a slash;
the handle is the longest slash-free suffix of the remainder, which must be
nonempty and must not be the whole remainder (a slash must precede it). -/
def specGetHandle (p : Str) : Str :=
  match p.reverse with
  | [] => []
  | c :: rest =>
      if c = '/' then
        let h := rest.takeWhile (fun x => x != '/')
        if h.length = 0 ∨ h.length = rest.length then [] else h.reverse
      else []

-- ### Lemmas relating `find_last_of` to the suffix view

theorem find_last_of_eq_none_iff (c : Char) (s : Str) :
    find_last_of c s = none ↔ c ∉ s := by
  induction s with
  | nil => simp [find_last_of]
  | cons a rest ih =>
      simp only [find_last_of]
      cases hr : find_last_of c rest with
      | some i =>
          have hcm : c ∈ rest := by
            by_contra hc
            rw [ih.mpr hc] at hr
            exact Option.noConfusion hr
          simp [List.mem_cons, hcm]
      | none =>
          have hcr : c ∉ rest := ih.mp hr
          by_cases hac : a = c
          · subst hac
            simp
          · rw [if_neg hac]
            constructor
            · intro _ hmem
              rcases List.mem_cons.mp hmem with h | h
              · exact hac h.symm
              · exact hcr h
            · intro _
              rfl

theorem takeWhile_append_of_mem (c : Char) (xs ys : List Char) (hm : c ∈ xs) :
    (xs ++ ys).takeWhile (fun x => x != c) = xs.takeWhile (fun x => x != c) := by
  induction xs with
  | nil => cases hm
  | cons a rest ih =>
      by_cases hac : a = c
      · subst hac
        simp [List.takeWhile]
      · have hcr : c ∈ rest := by
          rcases List.mem_cons.mp hm with h | h
          · exact absurd h.symm hac
          · exact h
        simp [List.takeWhile, hac, ih hcr]

theorem takeWhile_append_of_not_mem (c : Char) (xs ys : List Char) (hm : c ∉ xs) :
    (xs ++ ys).takeWhile (fun x => x != c)
      = xs ++ ys.takeWhile (fun x => x != c) := by
  induction xs with
  | nil => simp
  | cons a rest ih =>
      have hac : a ≠ c := fun h => hm (h ▸ List.mem_cons_self a rest)
      have hcr : c ∉ rest := fun h => hm (List.mem_cons_of_mem a h)
      have hb : (a != c) = true := bne_iff_ne.mpr hac
      simp [List.takeWhile, hb, ih hcr]

/-- Main characterisation: when `find_last_of` finds index `i`, the index is
in range and everything after it is the longest `c`-free suffix. -/
theorem find_last_of_some (c : Char) (s : Str) (i : Nat)
    (h : find_last_of c s = some i) :
    i < s.length ∧ s.drop (i + 1) = ((s.reverse.takeWhile (fun x => x != c)).reverse) := by
  induction s generalizing i with
  | nil => simp [find_last_of] at h
  | cons a rest ih =>
      simp only [find_last_of] at h
      cases hr : find_last_of c rest with
      | some j =>
          rw [hr] at h
          cases h
          obtain ⟨hlt, hdrop⟩ := ih j hr
          constructor
          · simpa [List.length_cons] using Nat.succ_lt_succ hlt
          · have hcm : c ∈ rest := by
              by_contra hcm
              rw [(find_last_of_eq_none_iff c rest).mpr hcm] at hr
              exact Option.noConfusion hr
            have hcrev : c ∈ rest.reverse := List.mem_reverse.mpr hcm
            calc (a :: rest).drop (j + 1 + 1) = rest.drop (j + 1) := by
                  simp [List.drop_succ_cons]
              _ = (rest.reverse.takeWhile (fun x => x != c)).reverse := hdrop
              _ = (((a :: rest).reverse).takeWhile (fun x => x != c)).reverse := by
                  rw [List.reverse_cons,
                      takeWhile_append_of_mem c rest.reverse [a] hcrev]
      | none =>
          rw [hr] at h
          by_cases hac : a = c
          · rw [if_pos hac] at h
            cases h
            have hcm : c ∉ rest := (find_last_of_eq_none_iff c rest).mp hr
            have hcrev : c ∉ rest.reverse := fun hmem => hcm (List.mem_reverse.mp hmem)
            constructor
            · simp
            · calc (a :: rest).drop 1 = rest := by simp
                _ = (((a :: rest).reverse).takeWhile (fun x => x != c)).reverse := by
                    rw [List.reverse_cons,
                        takeWhile_append_of_not_mem c rest.reverse [a] hcrev]
                    simp [List.takeWhile, hac]
          · rw [if_neg hac] at h
            exact Option.noConfusion h

theorem takeWhile_eq_self_of_not_mem (c : Char) (xs : List Char) (hm : c ∉ xs) :
    xs.takeWhile (fun x => x != c) = xs := by
  induction xs with
  | nil => rfl
  | cons a rest ih =>
      have hac : a ≠ c := fun h => hm (h ▸ List.mem_cons_self a rest)
      have hcr : c ∉ rest := fun h => hm (List.mem_cons_of_mem a h)
      have hb : (a != c) = true := bne_iff_ne.mpr hac
      simp [List.takeWhile, hb, ih hcr]

theorem takeWhile_length_lt_of_mem (c : Char) (xs : List Char) (hm : c ∈ xs) :
    (xs.takeWhile (fun x => x != c)).length < xs.length := by
  induction xs with
  | nil => cases hm
  | cons a rest ih =>
      by_cases hac : a = c
      · subst hac
        simp [List.takeWhile]
      · have hcr : c ∈ rest := by
          rcases List.mem_cons.mp hm with h | h
          · exact absurd h.symm hac
          · exact h
        have hb : (a != c) = true := bne_iff_ne.mpr hac
        simp only [List.takeWhile, hb, List.length_cons]
        exact Nat.succ_lt_succ (ih hcr)

/-- The handle resolver agrees with the spec-side suffix formulation. -/
theorem getHandle_eq_specGetHandle (p : Str) : getHandle p = specGetHandle p := by
  cases hp : p.reverse with
  | nil =>
      have hpnil : p = [] := by
        have h2 := congrArg List.reverse hp
        simpa using h2
      subst hpnil
      rfl
  | cons c rest =>
      have hpe : p = rest.reverse ++ [c] := by
        have h2 := congrArg List.reverse hp
        simpa using h2
      have hne : p ≠ [] := by
        rw [hpe]; simp
      have hlast : p.getLast? = some c := by
        rw [hpe]; simp
      have hdropl : p.dropLast = rest.reverse := by
        rw [hpe]; simp
      simp only [specGetHandle, hp]
      by_cases hc : c = '/'
      · have hcond : ¬(p = [] ∨ p.getLast? ≠ some '/') := by
          intro hor
          rcases hor with h | h
          · exact hne h
          · exact h (hc ▸ hlast)
        rw [if_pos hc]
        simp only [getHandle, if_neg hcond, hdropl]
        cases hf : find_last_of '/' rest.reverse with
        | none =>
            have hnm : '/' ∉ rest.reverse := (find_last_of_eq_none_iff _ _).mp hf
            have hnm2 : '/' ∉ rest := fun h => hnm (List.mem_reverse.mpr h)
            have hself : rest.takeWhile (fun x => x != '/') = rest :=
              takeWhile_eq_self_of_not_mem '/' rest hnm2
            rw [if_pos (Or.inr (congrArg List.length hself))]
        | some i =>
            obtain ⟨hlt, hdrop⟩ := find_last_of_some '/' rest.reverse i hf
            rw [List.reverse_reverse] at hdrop
            rw [List.length_reverse] at hlt
            have hmem : '/' ∈ rest.reverse := by
              by_contra hcm
              rw [(find_last_of_eq_none_iff '/' rest.reverse).mpr hcm] at hf
              exact Option.noConfusion hf
            have hmem2 : '/' ∈ rest := List.mem_reverse.mp hmem
            have hlen_lt : (rest.takeWhile (fun x => x != '/')).length < rest.length :=
              takeWhile_length_lt_of_mem '/' rest hmem2
            have hlh : (rest.takeWhile (fun x => x != '/')).length
                = rest.length - (i + 1) := by
              have h3 := congrArg List.length hdrop
              simp only [List.length_drop, List.length_reverse] at h3
              simpa using h3.symm
            show (if i + 1 ≥ rest.reverse.length then []
                  else rest.reverse.drop (i + 1)) = _
            simp only [List.length_reverse]
            by_cases hge : i + 1 ≥ rest.length
            · rw [if_pos hge, if_pos (Or.inl (by omega))]
            · have hcnd : ¬((rest.takeWhile (fun x => x != '/')).length = 0 ∨
                  (rest.takeWhile (fun x => x != '/')).length = rest.length) := by
                intro hor
                rcases hor with h | h <;> omega
              rw [if_neg hge, if_neg hcnd]
              exact hdrop
      · have hcond : p = [] ∨ p.getLast? ≠ some '/' := by
          right
          rw [hlast]
          intro h3
          exact hc (Option.some.inj h3)
        rw [if_neg hc]
        simp only [getHandle, if_pos hcond]

/-- C1: the handle resolver returns the empty string if the path is empty or
its last character is not a slash; otherwise, after removing the trailing
slash, it returns the empty string if the remainder contains no slash or
nothing follows the last slash, and otherwise the substring after the last
slash (formalised as equality with `specGetHandle`, the spec-side suffix
formulation).  In particular `/terminal/abcd/` resolves to `abcd`, while
`/terminal/abcd`, `/` and `/terminal//` all resolve to the empty string. -/
theorem C1_handle_resolution :
    (∀ p : Str, getHandle p = specGetHandle p) ∧
    getHandle "/terminal/abcd/".toList = "abcd".toList ∧
    getHandle "/terminal/abcd".toList = [] ∧
    getHandle "/".toList = [] ∧
    getHandle "/terminal//".toList = [] :=
  ⟨getHandle_eq_specGetHandle, by decide, by decide, by decide, by decide⟩

-- ### The socket facade state machine

/-- Error categories used by the facade (`boost::system::errc` values that
appear in the source). -/
inductive Errc
  | not_connected
  | invalid_argument
  | bad_message
  | not_supported
deriving DecidableEq

/-- Model of `core::Error` results: `Success()` or `systemError(errc, message)`. -/
inductive Result
  | success
  | failure (e : Errc) (msg : Str)
deriving DecidableEq

/-- The facade's fields (`ConsoleProcessSocket` data members that the
modelled operations read or write). -/
structure SocketState where
  port_ : Nat
  serverRunning_ : Bool
  connections_ : Registry
  callbacks_ : ConsoleProcessSocketCallbacks
deriving DecidableEq

/-- A freshly constructed facade (`ConsoleProcessSocket()` constructor):
port 0, not running, empty registry, default (unset) facade callbacks. -/
def initialState : SocketState :=
  ⟨0, false, [], ⟨none⟩⟩

/-- Outcome of one `wsServer_.listen`/`start_accept` attempt, decided by the
environment: success, a `websocketpp` exception whose code is
`transport::asio::error::pass_through` (the address-in-use kind, the only
kind the source retries), or a `websocketpp` exception of any other kind. -/
inductive BindOutcome
  | ok
  | addrInUse
  | fatal (msg : Str)
deriving DecidableEq

/-- Environment for `ensureServerRunning`: the stream of `rand()` values and
the outcome of the `i`-th bind attempt. -/
structure EnsureEnv where
  rands : Nat → Nat
  bind : Nat → BindOutcome

/-- Outcome of the whole bind loop. -/
inductive LoopOut
  | bound (port : Nat)
  | fatalErr (msg : Str)
  | exhausted
deriving DecidableEq

/-- Result of the bind loop together with the list of ports attempted, in
order. -/
structure BindResult where
  outcome : LoopOut
  attempts : List Nat
deriving DecidableEq

/-- The `do { ... } while (++portRetries < 20)` bind loop of
`ensureServerRunning`: attempt `i` uses port `3000 + rand() % 5000` (the
`i`-th draw); an address-in-use failure draws a new port and retries, any
other exception aborts, and running out of retries exhausts the loop. -/
def bindLoop (bind : Nat → BindOutcome) (rands : Nat → Nat) : Nat → Nat → BindResult
  | _, 0 => ⟨.exhausted, []⟩
  | i, fuel + 1 =>
      let port := 3000 + rands i % 5000
      match bind i with
      | .ok => ⟨.bound port, [port]⟩
      | .fatal msg => ⟨.fatalErr msg, [port]⟩
      | .addrInUse =>
          let r := bindLoop bind rands (i + 1) fuel
          ⟨r.outcome, port :: r.attempts⟩

/-- The message of the retry-exhaustion error
(`"Couldn't find an available port"`). -/
def noPortMsg : Str :=
  "Couldn".toList ++ [Char.ofNat 39] ++ "t find an available port".toList

/-- Model of `ConsoleProcessSocket::ensureServerRunning`.  The stored facade callbacks
are overwritten first; if the server is already running the call succeeds
immediately.  Otherwise the bind loop runs with at most 20 attempts; on a
bound port the port is recorded and the running flag set (the launch of the
background thread has no modelled state).  Handler registration and
`init_asio` are modelled as non-throwing; bind faults come from the
environment. -/
def ensureServerRunning (st : SocketState) (callbacks : ConsoleProcessSocketCallbacks)
    (env : EnsureEnv) : Result × SocketState :=
  let st := { st with callbacks_ := callbacks }
  if st.serverRunning_ then (.success, st)
  else
    match (bindLoop env.bind env.rands 0 20).outcome with
    | .bound p => (.success, { st with port_ := p, serverRunning_ := true })
    | .fatalErr msg => (.failure .invalid_argument msg, st)
    | .exhausted => (.failure .not_supported noPortMsg, st)

/-- The steps of `stopServer`'s teardown, in source order:
`stopAll(); wsServer_.stop(); serverRunning_ = false; port_ = 0;
websocketThread_.join();`. -/
inductive TeardownStep
  | clearConnections
  | wsStop
  | clearRunningFlag
  | resetPort
  | joinThread
deriving DecidableEq

/-- Environment for `stopServer`: whether `wsServer_.stop()` throws (with
the exception message) and whether `websocketThread_.join()` throws. -/
structure StopEnv where
  wsStopThrows : Option Str
  joinThrows : Option Str

/-- Model of `ConsoleProcessSocket::stopServer`, instrumented with the list of
teardown steps performed (a step that throws is recorded as performed, and
the `catch` converts the exception into a failure result). -/
def stopServerExec (st : SocketState) (env : StopEnv) :
    Result × SocketState × List TeardownStep :=
  if st.serverRunning_ then
    let st1 := { st with connections_ := [] }
    match env.wsStopThrows with
    | some msg =>
        (.failure .invalid_argument msg, st1, [.clearConnections, .wsStop])
    | none =>
        let st2 := { st1 with serverRunning_ := false, port_ := 0 }
        match env.joinThrows with
        | some msg =>
            (.failure .invalid_argument msg, st2,
             [.clearConnections, .wsStop, .clearRunningFlag, .resetPort, .joinThread])
        | none =>
            (.success, st2,
             [.clearConnections, .wsStop, .clearRunningFlag, .resetPort, .joinThread])
  else (.success, st, [])

/-- Projection of `stopServerExec`: result and state of the instrumented teardown. -/
def stopServer (st : SocketState) (env : StopEnv) : Result × SocketState :=
  ((stopServerExec st env).1, (stopServerExec st env).2.1)

/-- The teardown steps `stopServer` performs. -/
def stopServerTrace (st : SocketState) (env : StopEnv) : List TeardownStep :=
  (stopServerExec st env).2.2

namespace ConsoleProcessSocket

/-- Model of `ConsoleProcessSocket::listen`. -/
def listen (st : SocketState) (terminalHandle : Str)
    (callbacks : ConsoleProcessSocketConnectionCallbacks) : Result × SocketState :=
  if st.serverRunning_ = false then
    (.failure .not_connected terminalHandle, st)
  else
    let details := tsGet st.connections_ terminalHandle
    let details := { details with
      handle_ := terminalHandle, connectionCallbacks_ := callbacks }
    (.success, { st with connections_ := tsSet st.connections_ terminalHandle details })

/-- Model of `ConsoleProcessSocket::stop`. -/
def stop (st : SocketState) (terminalHandle : Str) : Result × SocketState :=
  let details := tsGet st.connections_ terminalHandle
  if details.handle_ ≠ terminalHandle then
    (.failure .invalid_argument terminalHandle, st)
  else
    (.success, { st with connections_ := tsErase st.connections_ terminalHandle })

/-- Model of `ConsoleProcessSocket::stopAll`. -/
def stopAll (st : SocketState) : Result × SocketState :=
  (.success, { st with connections_ := [] })

/-- Model of `ConsoleProcessSocket::port`. -/
def port (st : SocketState) : Nat :=
  st.port_

/-- Environment for `sendText`: the `error_code` (value and message)
produced by `wsServer_.get_con_from_hdl` and by `wsServer_.send`. -/
structure SendEnv where
  conEc : Nat
  conEcMsg : Str
  sendEc : Nat
  sendEcMsg : Str

/-- The WebSocket frame opcodes the facade can send. -/
inductive Opcode
  | text
  | binary
deriving DecidableEq

/-- A frame handed to `wsServer_.send`. -/
structure SendAction where
  hdl : Option Nat
  message : Str
  opcode : Opcode
deriving DecidableEq

/-- The unknown-handle error message of `sendText`
(`"Unknown handle: \"" + handle + "\""`). -/
def unknownMsg (h : Str) : Str :=
  "Unknown handle: \"".toList ++ h ++ "\"".toList

/-- Model of `ConsoleProcessSocket::sendText`.  The state is not modified; the second
component is the frame handed to the transport (`none` when no send was
attempted). -/
def sendText (st : SocketState) (terminalHandle message : Str)
    (env : SendEnv) : Result × Option SendAction :=
  -- do we know about this handle?
  let details := tsGet st.connections_ terminalHandle
  if details.handle_ ≠ terminalHandle then
    (.failure .not_connected (unknownMsg terminalHandle), none)
  -- make sure this handle still refers to a connection before sending
  else if env.conEc > 0 then
    (.failure .not_connected env.conEcMsg, none)
  else if env.sendEc ≠ 0 then
    (.failure .bad_message env.sendEcMsg, some ⟨details.hdl_, message, .text⟩)
  else
    (.success, some ⟨details.hdl_, message, .text⟩)

/-- Events emitted by the connection handlers: each carries the identifier
of the callback invoked (and the payload for input events). -/
inductive Event
  | opened (cb : Nat)
  | closed (cb : Nat)
  | input (cb : Nat) (msg : Str)
deriving DecidableEq

/-- Model of `ConsoleProcessSocket::onMessage`: the connection's resolved resource
path and the frame payload are passed in by the transport. -/
def onMessage (st : SocketState) (resource msg : Str) : SocketState × Option Event :=
  let handle := getHandle resource
  if handle = [] then (st, none)
  else
    let details := tsGet st.connections_ handle
    (st, details.connectionCallbacks_.onReceivedInput.map (fun cb => .input cb msg))

/-- Model of `ConsoleProcessSocket::onClose`. -/
def onClose (st : SocketState) (resource : Str) : SocketState × Option Event :=
  let handle := getHandle resource
  if handle = [] then (st, none)
  else
    let details := tsGet st.connections_ handle
    (st, details.connectionCallbacks_.onConnectionClosed.map (fun cb => .closed cb))

/-- Model of `ConsoleProcessSocket::onOpen`: `hdl` is the transport's connection
handle for the newly opened physical connection. -/
def onOpen (st : SocketState) (resource : Str) (hdl : Nat) : SocketState × Option Event :=
  let handle := getHandle resource
  if handle = [] then (st, none)
  else
    -- add/update in connections map
    let details := tsGet st.connections_ handle
    let details := { details with handle_ := handle, hdl_ := some hdl }
    ({ st with connections_ := tsSet st.connections_ handle details },
     -- notify the specific connection, if available
     details.connectionCallbacks_.onConnectionOpened.map (fun cb => .opened cb))

end ConsoleProcessSocket

-- ### Registry lemmas

theorem rlookup_tsSet_self (m : Registry) (h : Str)
    (d : ConsoleProcessSocketConnectionDetails) :
    rlookup (tsSet m h d) h = some d := by
  induction m with
  | nil => simp [tsSet, rlookup]
  | cons kv rest ih =>
      obtain ⟨k, v⟩ := kv
      by_cases hk : k = h
      · simp [tsSet, hk, rlookup]
      · simp [tsSet, hk, rlookup, ih]

theorem rlookup_tsSet_ne (m : Registry) (h h' : Str)
    (d : ConsoleProcessSocketConnectionDetails) (hne : h' ≠ h) :
    rlookup (tsSet m h d) h' = rlookup m h' := by
  have hne' : h ≠ h' := fun he => hne he.symm
  induction m with
  | nil => simp [tsSet, rlookup, hne']
  | cons kv rest ih =>
      obtain ⟨k, v⟩ := kv
      by_cases hk : k = h
      · subst hk
        simp [tsSet, rlookup, hne']
      · simp [tsSet, hk, rlookup, ih]

theorem rlookup_mem (m : Registry) (h : Str)
    (d : ConsoleProcessSocketConnectionDetails) (hl : rlookup m h = some d) :
    (h, d) ∈ m := by
  induction m with
  | nil => simp [rlookup] at hl
  | cons kv rest ih =>
      obtain ⟨k, v⟩ := kv
      by_cases hk : k = h
      · subst hk
        simp [rlookup] at hl
        subst hl
        exact List.mem_cons_self _ _
      · simp [rlookup, hk] at hl
        exact List.mem_cons_of_mem _ (ih hl)

theorem mem_tsSet (m : Registry) (h : Str)
    (d : ConsoleProcessSocketConnectionDetails) (x : Str × ConsoleProcessSocketConnectionDetails)
    (hx : x ∈ tsSet m h d) : x = (h, d) ∨ x ∈ m := by
  induction m with
  | nil =>
      simp [tsSet] at hx
      exact Or.inl hx
  | cons kv rest ih =>
      obtain ⟨k, v⟩ := kv
      by_cases hk : k = h
      · simp [tsSet, hk] at hx
        rcases hx with hx | hx
        · exact Or.inl hx
        · exact Or.inr (List.mem_cons_of_mem _ hx)
      · simp only [tsSet, if_neg hk] at hx
        rcases List.mem_cons.mp hx with hx | hx
        · exact Or.inr (hx ▸ List.mem_cons_self _ _)
        · rcases ih hx with hx | hx
          · exact Or.inl hx
          · exact Or.inr (List.mem_cons_of_mem _ hx)

theorem mem_tsErase (m : Registry) (h : Str)
    (x : Str × ConsoleProcessSocketConnectionDetails)
    (hx : x ∈ tsErase m h) : x ∈ m := by
  induction m with
  | nil => simp [tsErase] at hx
  | cons kv rest ih =>
      obtain ⟨k, v⟩ := kv
      by_cases hk : k = h
      · simp only [tsErase, if_pos hk] at hx
        exact List.mem_cons_of_mem _ hx
      · simp only [tsErase, if_neg hk] at hx
        rcases List.mem_cons.mp hx with hx | hx
        · exact hx ▸ List.mem_cons_self _ _
        · exact List.mem_cons_of_mem _ (ih hx)

-- ### Operation sequences and reachability

/-- One public facade operation or one transport event, with the
environment that drives it. -/
inductive Op
  | ensure (cb : ConsoleProcessSocketCallbacks) (env : EnsureEnv)
  | stopSrv (env : StopEnv)
  | listenOp (h : Str) (cb : ConsoleProcessSocketConnectionCallbacks)
  | stopOne (h : Str)
  | stopAllOp
  | sendTextOp (h m : Str) (env : ConsoleProcessSocket.SendEnv)
  | openEv (resource : Str) (hdl : Nat)
  | messageEv (resource msg : Str)
  | closeEv (resource : Str)

/-- The state reached after one operation (results and events discarded). -/
def applyOp (st : SocketState) : Op → SocketState
  | .ensure cb env => (ensureServerRunning st cb env).2
  | .stopSrv env => (stopServer st env).2
  | .listenOp h cb => (ConsoleProcessSocket.listen st h cb).2
  | .stopOne h => (ConsoleProcessSocket.stop st h).2
  | .stopAllOp => (ConsoleProcessSocket.stopAll st).2
  | .sendTextOp _ _ _ => st
  | .openEv r hdl => (ConsoleProcessSocket.onOpen st r hdl).1
  | .messageEv r m => (ConsoleProcessSocket.onMessage st r m).1
  | .closeEv r => (ConsoleProcessSocket.onClose st r).1

/-- The state reached after a sequence of operations. -/
def runOps (st : SocketState) : List Op → SocketState
  | [] => st
  | op :: rest => runOps (applyOp st op) rest

/-- The port/flag invariant: a running server has a positive port; a stopped
one has port 0. -/
def portInv (st : SocketState) : Prop :=
  (st.serverRunning_ = true → 0 < st.port_) ∧
  (st.serverRunning_ = false → st.port_ = 0)

theorem bindLoop_bound_ge (b : Nat → BindOutcome) (r : Nat → Nat) :
    ∀ fuel i p, (bindLoop b r i fuel).outcome = .bound p → 3000 ≤ p := by
  intro fuel
  induction fuel with
  | zero => intro i p h; simp [bindLoop] at h
  | succ fuel ih =>
      intro i p h
      simp only [bindLoop] at h
      cases hb : b i with
      | ok =>
          rw [hb] at h
          cases h
          exact Nat.le_add_right 3000 (r i % 5000) |>.trans (Nat.le_refl _)
      | fatal msg => rw [hb] at h; exact LoopOut.noConfusion h
      | addrInUse => rw [hb] at h; exact ih (i + 1) p h

theorem applyOp_fields (st : SocketState) (op : Op) :
    ((applyOp st op).port_ = st.port_ ∧ (applyOp st op).serverRunning_ = st.serverRunning_)
    ∨ (3000 ≤ (applyOp st op).port_ ∧ (applyOp st op).serverRunning_ = true)
    ∨ ((applyOp st op).port_ = 0 ∧ (applyOp st op).serverRunning_ = false) := by
  cases op with
  | ensure cb env =>
      cases hsr : st.serverRunning_ with
      | true =>
          left
          simp [applyOp, ensureServerRunning, hsr]
      | false =>
          cases ho : (bindLoop env.bind env.rands 0 20).outcome with
          | bound p =>
              right; left
              have hge := bindLoop_bound_ge env.bind env.rands 20 0 p ho
              simp [applyOp, ensureServerRunning, hsr, ho, hge]
          | fatalErr msg =>
              left
              simp [applyOp, ensureServerRunning, hsr, ho]
          | exhausted =>
              left
              simp [applyOp, ensureServerRunning, hsr, ho]
  | stopSrv env =>
      cases hsr : st.serverRunning_ with
      | true =>
          cases hws : env.wsStopThrows with
          | some msg =>
              left
              simp [applyOp, stopServer, stopServerExec, hsr, hws]
          | none =>
              right; right
              cases hj : env.joinThrows with
              | some msg => simp [applyOp, stopServer, stopServerExec, hsr, hws, hj]
              | none => simp [applyOp, stopServer, stopServerExec, hsr, hws, hj]
      | false =>
          left
          simp [applyOp, stopServer, stopServerExec, hsr]
  | listenOp h cb =>
      left
      cases hsr : st.serverRunning_ with
      | true => simp [applyOp, ConsoleProcessSocket.listen, hsr]
      | false => simp [applyOp, ConsoleProcessSocket.listen, hsr]
  | stopOne h =>
      left
      by_cases hu : (tsGet st.connections_ h).handle_ ≠ h
      · simp [applyOp, ConsoleProcessSocket.stop, hu]
      · simp [applyOp, ConsoleProcessSocket.stop, hu]
  | stopAllOp =>
      left
      simp [applyOp, ConsoleProcessSocket.stopAll]
  | sendTextOp h m env =>
      left
      exact ⟨rfl, rfl⟩
  | openEv r hdl =>
      left
      by_cases hh : getHandle r = []
      · simp [applyOp, ConsoleProcessSocket.onOpen, hh]
      · simp [applyOp, ConsoleProcessSocket.onOpen, hh]
  | messageEv r m =>
      left
      by_cases hh : getHandle r = []
      · simp [applyOp, ConsoleProcessSocket.onMessage, hh]
      · simp [applyOp, ConsoleProcessSocket.onMessage, hh]
  | closeEv r =>
      left
      by_cases hh : getHandle r = []
      · simp [applyOp, ConsoleProcessSocket.onClose, hh]
      · simp [applyOp, ConsoleProcessSocket.onClose, hh]

theorem portInv_applyOp (st : SocketState) (op : Op) (hinv : portInv st) :
    portInv (applyOp st op) := by
  obtain ⟨h1, h2⟩ := hinv
  unfold portInv
  rcases applyOp_fields st op with ⟨hp, hf⟩ | ⟨hp, hf⟩ | ⟨hp, hf⟩
  · exact ⟨fun hc => hp ▸ h1 (hf ▸ hc), fun hc => hp ▸ h2 (hf ▸ hc)⟩
  · refine ⟨fun _ => by omega, fun hc => ?_⟩
    rw [hf] at hc
    cases hc
  · refine ⟨fun hc => ?_, fun _ => hp⟩
    rw [hf] at hc
    cases hc

theorem portInv_runOps (ops : List Op) :
    ∀ st, portInv st → portInv (runOps st ops) := by
  induction ops with
  | nil => intro st h; exact h
  | cons op rest ih =>
      intro st h
      exact ih (applyOp st op) (portInv_applyOp st op h)

theorem portInv_initial : portInv initialState :=
  ⟨fun h => by simp [initialState] at h, fun _ => rfl⟩

-- ### Bind-loop characterisation

theorem bindLoop_attempts_range (b : Nat → BindOutcome) (r : Nat → Nat) :
    ∀ fuel i p, p ∈ (bindLoop b r i fuel).attempts →
      ∃ j, i ≤ j ∧ j < i + fuel ∧ p = 3000 + r j % 5000 := by
  intro fuel
  induction fuel with
  | zero => intro i p hp; simp [bindLoop] at hp
  | succ fuel ih =>
      intro i p hp
      simp only [bindLoop] at hp
      cases hb : b i with
      | ok =>
          rw [hb] at hp
          simp at hp
          exact ⟨i, Nat.le_refl i, by omega, hp⟩
      | fatal msg =>
          rw [hb] at hp
          simp at hp
          exact ⟨i, Nat.le_refl i, by omega, hp⟩
      | addrInUse =>
          rw [hb] at hp
          simp at hp
          rcases hp with hp | hp
          · exact ⟨i, Nat.le_refl i, by omega, hp⟩
          · obtain ⟨j, hj1, hj2, hj3⟩ := ih (i + 1) p hp
            exact ⟨j, by omega, by omega, hj3⟩

theorem bindLoop_attempts_len (b : Nat → BindOutcome) (r : Nat → Nat) :
    ∀ fuel i, (bindLoop b r i fuel).attempts.length ≤ fuel := by
  intro fuel
  induction fuel with
  | zero => intro i; simp [bindLoop]
  | succ fuel ih =>
      intro i
      simp only [bindLoop]
      cases hb : b i with
      | ok => simp
      | fatal msg => simp
      | addrInUse =>
          simp only [List.length_cons]
          exact Nat.succ_le_succ (ih (i + 1))

theorem bindLoop_all_addr (b : Nat → BindOutcome) (r : Nat → Nat) :
    ∀ fuel i, (∀ j, i ≤ j → j < i + fuel → b j = .addrInUse) →
      (bindLoop b r i fuel).outcome = .exhausted := by
  intro fuel
  induction fuel with
  | zero => intro i _; rfl
  | succ fuel ih =>
      intro i hall
      have hbi : b i = .addrInUse := hall i (Nat.le_refl i) (by omega)
      simp only [bindLoop, hbi]
      exact ih (i + 1) (fun j hj1 hj2 => hall j (by omega) (by omega))

theorem bindLoop_first_ok (b : Nat → BindOutcome) (r : Nat → Nat) :
    ∀ fuel i k, i ≤ k → k < i + fuel →
      (∀ j, i ≤ j → j < k → b j = .addrInUse) → b k = .ok →
      (bindLoop b r i fuel).outcome = .bound (3000 + r k % 5000) ∧
      (bindLoop b r i fuel).attempts.length = k - i + 1 := by
  intro fuel
  induction fuel with
  | zero => intro i k h1 h2 _ _; omega
  | succ fuel ih =>
      intro i k h1 h2 hall hk
      by_cases hik : k = i
      · subst hik
        simp [bindLoop, hk]
      · have hbi : b i = .addrInUse := hall i (Nat.le_refl i) (by omega)
        have hrec := ih (i + 1) k (by omega) (by omega)
          (fun j hj1 hj2 => hall j (by omega) hj2) hk
        simp only [bindLoop, hbi, List.length_cons]
        exact ⟨hrec.1, by omega⟩

theorem bindLoop_first_fatal (b : Nat → BindOutcome) (r : Nat → Nat) :
    ∀ fuel i k msg, i ≤ k → k < i + fuel →
      (∀ j, i ≤ j → j < k → b j = .addrInUse) → b k = .fatal msg →
      (bindLoop b r i fuel).outcome = .fatalErr msg ∧
      (bindLoop b r i fuel).attempts.length = k - i + 1 := by
  intro fuel
  induction fuel with
  | zero => intro i k msg h1 h2 _ _; omega
  | succ fuel ih =>
      intro i k msg h1 h2 hall hk
      by_cases hik : k = i
      · subst hik
        simp [bindLoop, hk]
      · have hbi : b i = .addrInUse := hall i (Nat.le_refl i) (by omega)
        have hrec := ih (i + 1) k msg (by omega) (by omega)
          (fun j hj1 hj2 => hall j (by omega) hj2) hk
        simp only [bindLoop, hbi, List.length_cons]
        exact ⟨hrec.1, by omega⟩

-- ### Concrete sample states used by witnesses and counterexamples

/-- Environment whose every bind attempt succeeds and whose `rand()` stream
is constantly 0. -/
def envAllOk : EnsureEnv := ⟨fun _ => 0, fun _ => .ok⟩

/-- No teardown step throws. -/
def envNoThrow : StopEnv := ⟨none, none⟩

/-- A running facade obtained from a fresh one by a successful
`ensureServerRunning` (port 3000, empty registry). -/
def stRun : SocketState := (ensureServerRunning initialState ⟨none⟩ envAllOk).2

def sampleHandle : Str := "abcd".toList

def sampleDetails : ConsoleProcessSocketConnectionDetails :=
  ⟨sampleHandle, some 3, ⟨some 1, some 2, some 0⟩⟩

/-- A running facade with one registered, opened connection for
`sampleHandle`. -/
def stConn : SocketState :=
  ⟨3000, true, [(sampleHandle, sampleDetails)], ⟨none⟩⟩

/-- A transport environment in which the connection reference is valid and
the send succeeds. -/
def sendOkEnv : ConsoleProcessSocket.SendEnv := ⟨0, [], 0, []⟩

/-- C2: `sendText(h, m)` fails with a not-connected error when the stored
record's handle does not equal `h` (no registration); with a not-connected
(stale) error, without attempting a send, when the registration exists but
`get_con_from_hdl` reports an error; with a bad-message error when the
low-level send reports an error; otherwise it sends `m` as a single text
frame and succeeds. -/
theorem C2_sendText_errors (st : SocketState) (h m : Str)
    (env : ConsoleProcessSocket.SendEnv) :
    ((tsGet st.connections_ h).handle_ ≠ h →
      ConsoleProcessSocket.sendText st h m env
        = (.failure .not_connected (ConsoleProcessSocket.unknownMsg h), none)) ∧
    ((tsGet st.connections_ h).handle_ = h → env.conEc > 0 →
      ConsoleProcessSocket.sendText st h m env
        = (.failure .not_connected env.conEcMsg, none)) ∧
    ((tsGet st.connections_ h).handle_ = h → env.conEc = 0 → env.sendEc ≠ 0 →
      ConsoleProcessSocket.sendText st h m env
        = (.failure .bad_message env.sendEcMsg,
           some ⟨(tsGet st.connections_ h).hdl_, m, .text⟩)) ∧
    ((tsGet st.connections_ h).handle_ = h → env.conEc = 0 → env.sendEc = 0 →
      ConsoleProcessSocket.sendText st h m env
        = (.success, some ⟨(tsGet st.connections_ h).hdl_, m, .text⟩)) := by
  refine ⟨?_, ?_, ?_, ?_⟩
  · intro hu
    simp [ConsoleProcessSocket.sendText, hu]
  · intro hk hc
    simp [ConsoleProcessSocket.sendText, hk, hc]
  · intro hk hc hs
    have hc' : ¬env.conEc > 0 := by omega
    simp [ConsoleProcessSocket.sendText, hk, hc', hs]
  · intro hk hc hs
    have hc' : ¬env.conEc > 0 := by omega
    simp [ConsoleProcessSocket.sendText, hk, hc', hs]

/-- Witness for C2: on a running facade with a registered, valid connection
for `abcd`, `sendText` succeeds and emits one text frame. -/
theorem C2_sendText_errors_witness :
    ConsoleProcessSocket.sendText stConn sampleHandle "hi".toList sendOkEnv
      = (.success,
         some ⟨(tsGet stConn.connections_ sampleHandle).hdl_, "hi".toList, .text⟩) :=
  (C2_sendText_errors stConn sampleHandle "hi".toList sendOkEnv).2.2.2
    (by decide) rfl rfl

/-- C5: `listen(h, cb)` fails with a not-connected error when the server is
not running, leaving the state unchanged; when it is running it succeeds,
creating or overwriting the registration for `h` with the new callback set,
preserving the previously stored connection reference and every other
handle's registration, and changing nothing else (in particular it opens no
network connection: no transport action exists and port/flag are
untouched). -/
theorem C5_listen_registers (st : SocketState) (h : Str)
    (cb : ConsoleProcessSocketConnectionCallbacks) :
    (st.serverRunning_ = false →
      ConsoleProcessSocket.listen st h cb = (.failure .not_connected h, st)) ∧
    (st.serverRunning_ = true →
      (ConsoleProcessSocket.listen st h cb).1 = .success ∧
      (ConsoleProcessSocket.listen st h cb).2
        = { st with connections_ := tsSet st.connections_ h ⟨h, (tsGet st.connections_ h).hdl_, cb⟩ } ∧
      tsGet (ConsoleProcessSocket.listen st h cb).2.connections_ h
        = ⟨h, (tsGet st.connections_ h).hdl_, cb⟩ ∧
      (∀ h2, h2 ≠ h →
        rlookup (ConsoleProcessSocket.listen st h cb).2.connections_ h2
          = rlookup st.connections_ h2) ∧
      (ConsoleProcessSocket.listen st h cb).2.port_ = st.port_ ∧
      (ConsoleProcessSocket.listen st h cb).2.serverRunning_ = st.serverRunning_) := by
  constructor
  · intro hr
    simp [ConsoleProcessSocket.listen, hr]
  · intro hr
    have hr' : ¬st.serverRunning_ = false := by simp [hr]
    refine ⟨by simp [ConsoleProcessSocket.listen, hr'], by simp [ConsoleProcessSocket.listen, hr'], ?_, ?_, ?_, ?_⟩
    · simp only [ConsoleProcessSocket.listen, if_neg hr']
      simp [tsGet, rlookup_tsSet_self]
    · intro h2 hne
      simp only [ConsoleProcessSocket.listen, if_neg hr']
      simpa using rlookup_tsSet_ne st.connections_ h h2 _ hne
    · simp [ConsoleProcessSocket.listen, hr']
    · simp [ConsoleProcessSocket.listen, hr']

/-- Witness for C5: registering `abcd` on the running facade succeeds and
stores the new callbacks while keeping the (empty) connection reference. -/
theorem C5_listen_registers_witness :
    (ConsoleProcessSocket.listen stRun sampleHandle ⟨some 1, some 2, some 0⟩).1
      = Result.success ∧
    tsGet (ConsoleProcessSocket.listen stRun sampleHandle ⟨some 1, some 2, some 0⟩).2.connections_
        sampleHandle
      = ⟨sampleHandle, (tsGet stRun.connections_ sampleHandle).hdl_,
         ⟨some 1, some 2, some 0⟩⟩ := by
  have hcl := (C5_listen_registers stRun sampleHandle ⟨some 1, some 2, some 0⟩).2 (by decide)
  exact ⟨hcl.1, hcl.2.2.1⟩

/-- C6 counterexample: on a fresh facade, `stop` with the empty handle does
NOT fail: the absent-key lookup yields the default record whose (empty)
handle equals the queried empty handle, so `stop("")` returns success
(refuting "for every handle string h, stop(h) fails"). -/
theorem C6_counterexample :
    ConsoleProcessSocket.stop initialState [] = (Result.success, initialState) := by
  decide

/-- C6 (amended): for a freshly constructed facade, `port()` returns 0, the
registry is empty, and `stop(h)` fails with an invalid-argument error for
every nonempty handle `h`, leaving the registry empty; for the empty handle
`stop` succeeds (also leaving the registry empty). -/
theorem C6_fresh_facade :
    ConsoleProcessSocket.port initialState = 0 ∧
    initialState.connections_ = [] ∧
    (∀ h : Str, h ≠ [] →
      ConsoleProcessSocket.stop initialState h
        = (.failure .invalid_argument h, initialState)) ∧
    ConsoleProcessSocket.stop initialState [] = (Result.success, initialState) := by
  refine ⟨rfl, rfl, ?_, by decide⟩
  intro h hne
  have hd : (tsGet ([] : Registry) h).handle_ ≠ h :=
    fun he => hne he.symm
  simp [ConsoleProcessSocket.stop, initialState, hd]

/-- Witness for C6: `stop("abcd")` on a fresh facade fails with
invalid-argument. -/
theorem C6_fresh_facade_witness :
    ConsoleProcessSocket.stop initialState sampleHandle
      = (.failure .invalid_argument sampleHandle, initialState) :=
  C6_fresh_facade.2.2.1 sampleHandle (by decide)

/-- C3: when the server is not running, every candidate port is
`3000 + rand() % 5000` (hence within 3000..7999); at most 20 bind attempts
are made; if every attempt fails with the address-in-use kind the call
returns the not-supported "no available port" failure; a failure of any
other kind is returned immediately as an invalid-argument error (no further
attempts); and a successful bind records the bound port and returns
success. -/
theorem C3_bind_retry (st : SocketState) (cb : ConsoleProcessSocketCallbacks)
    (env : EnsureEnv) (hns : st.serverRunning_ = false) :
    (∀ p ∈ (bindLoop env.bind env.rands 0 20).attempts,
        ∃ i, i < 20 ∧ p = 3000 + env.rands i % 5000 ∧ 3000 ≤ p ∧ p ≤ 7999) ∧
    (bindLoop env.bind env.rands 0 20).attempts.length ≤ 20 ∧
    ((∀ i, i < 20 → env.bind i = .addrInUse) →
        ensureServerRunning st cb env
          = (.failure .not_supported noPortMsg, { st with callbacks_ := cb })) ∧
    (∀ k msg, k < 20 → (∀ j, j < k → env.bind j = .addrInUse) →
        env.bind k = .fatal msg →
        ensureServerRunning st cb env
          = (.failure .invalid_argument msg, { st with callbacks_ := cb }) ∧
        (bindLoop env.bind env.rands 0 20).attempts.length = k + 1) ∧
    (∀ k, k < 20 → (∀ j, j < k → env.bind j = .addrInUse) → env.bind k = .ok →
        ensureServerRunning st cb env
          = (.success, (⟨3000 + env.rands k % 5000, true, st.connections_, cb⟩ : SocketState)) ∧
        (bindLoop env.bind env.rands 0 20).attempts.length = k + 1) := by
  refine ⟨?_, bindLoop_attempts_len env.bind env.rands 20 0, ?_, ?_, ?_⟩
  · intro p hp
    obtain ⟨j, hj1, hj2, hj3⟩ := bindLoop_attempts_range env.bind env.rands 20 0 p hp
    exact ⟨j, by omega, hj3, by omega, by omega⟩
  · intro hall
    have hout := bindLoop_all_addr env.bind env.rands 20 0
      (fun j _ hj2 => hall j (by omega))
    simp [ensureServerRunning, hns, hout]
  · intro k msg hk hprev hbk
    have hres := bindLoop_first_fatal env.bind env.rands 20 0 k msg (by omega) (by omega)
      (fun j _ hj2 => hprev j hj2) hbk
    refine ⟨?_, by omega⟩
    simp [ensureServerRunning, hns, hres.1]
  · intro k hk hprev hbk
    have hres := bindLoop_first_ok env.bind env.rands 20 0 k (by omega) (by omega)
      (fun j _ hj2 => hprev j hj2) hbk
    refine ⟨?_, by omega⟩
    simp [ensureServerRunning, hns, hres.1]

/-- Witness for C3: from a fresh facade with an all-ok environment the first
attempt binds port 3000 and the call succeeds. -/
theorem C3_bind_retry_witness :
    ensureServerRunning initialState ⟨none⟩ envAllOk
      = (.success,
         (⟨3000 + envAllOk.rands 0 % 5000, true, initialState.connections_, ⟨none⟩⟩ : SocketState)) :=
  ((C3_bind_retry initialState ⟨none⟩ envAllOk rfl).2.2.2.2 0 (by decide)
    (fun j hj => absurd hj (Nat.not_lt_zero j)) rfl).1

/-- C4 counterexample: on a running facade reached by a successful
`ensureServerRunning`, a second `ensureServerRunning` returns success but
DOES change state (the stored facade callback set is overwritten before the
running-flag check), and a `stopServer` whose `wsServer_.stop()` throws
returns with the port still nonzero — refuting "changes no state" and
"after stopServer returns, port() returns 0". -/
theorem C4_counterexample :
    (ensureServerRunning stRun ⟨some 7⟩ envAllOk).1 = Result.success ∧
    (ensureServerRunning stRun ⟨some 7⟩ envAllOk).2 ≠ stRun ∧
    ConsoleProcessSocket.port (stopServer stRun ⟨some "boom".toList, none⟩).2 ≠ 0 := by
  refine ⟨by decide, by decide, by decide⟩

/-- C4 (amended): `ensureServerRunning` is idempotent: if the running flag
is already set it returns success immediately and changes no state apart
from storing the supplied facade callback set (in particular no new port is
chosen and port, flag and registry are unchanged).  Over every reachable
state, a successful `ensureServerRunning` leaves `port()` strictly
positive, and a `stopServer` that returns success leaves `port()` equal
to 0; both facts hold across arbitrary operation sequences. -/
theorem C4_idempotent_port (ops : List Op) (cb : ConsoleProcessSocketCallbacks)
    (env : EnsureEnv) (senv : StopEnv) :
    ((runOps initialState ops).serverRunning_ = true →
      ensureServerRunning (runOps initialState ops) cb env
        = (.success, { runOps initialState ops with callbacks_ := cb })) ∧
    ((ensureServerRunning (runOps initialState ops) cb env).1 = .success →
      0 < ConsoleProcessSocket.port (ensureServerRunning (runOps initialState ops) cb env).2) ∧
    ((stopServer (runOps initialState ops) senv).1 = .success →
      ConsoleProcessSocket.port (stopServer (runOps initialState ops) senv).2 = 0) := by
  have hinv := portInv_runOps ops initialState portInv_initial
  obtain ⟨h1, h2⟩ := hinv
  refine ⟨?_, ?_, ?_⟩
  · intro hr
    simp [ensureServerRunning, hr]
  · intro hs
    cases hsr : (runOps initialState ops).serverRunning_ with
    | true =>
        have hp := h1 hsr
        simp only [ensureServerRunning, hsr, if_true]
        simpa [ConsoleProcessSocket.port] using hp
    | false =>
        cases ho : (bindLoop env.bind env.rands 0 20).outcome with
        | bound p =>
            have hge := bindLoop_bound_ge env.bind env.rands 20 0 p ho
            simp only [ensureServerRunning, hsr, ho]
            simp [ConsoleProcessSocket.port]
            omega
        | fatalErr msg =>
            rw [show (ensureServerRunning (runOps initialState ops) cb env).1
                  = .failure .invalid_argument msg by
                simp [ensureServerRunning, hsr, ho]] at hs
            exact Result.noConfusion hs
        | exhausted =>
            rw [show (ensureServerRunning (runOps initialState ops) cb env).1
                  = .failure .not_supported noPortMsg by
                simp [ensureServerRunning, hsr, ho]] at hs
            exact Result.noConfusion hs
  · intro hs
    cases hsr : (runOps initialState ops).serverRunning_ with
    | false =>
        have hp := h2 hsr
        simp only [stopServer, stopServerExec, hsr]
        simpa [ConsoleProcessSocket.port] using hp
    | true =>
        cases hws : senv.wsStopThrows with
        | some msg =>
            rw [show (stopServer (runOps initialState ops) senv).1
                  = .failure .invalid_argument msg by
                simp [stopServer, stopServerExec, hsr, hws]] at hs
            exact Result.noConfusion hs
        | none =>
            cases hj : senv.joinThrows with
            | some msg =>
                rw [show (stopServer (runOps initialState ops) senv).1
                      = .failure .invalid_argument msg by
                    simp [stopServer, stopServerExec, hsr, hws, hj]] at hs
                exact Result.noConfusion hs
            | none =>
                simp [stopServer, stopServerExec, hsr, hws, hj,
                      ConsoleProcessSocket.port]

/-- Witness for C4: after one successful start, a second
`ensureServerRunning` succeeds immediately with only the callbacks stored,
and a clean `stopServer` resets the port to 0. -/
theorem C4_idempotent_port_witness :
    ensureServerRunning (runOps initialState [Op.ensure ⟨none⟩ envAllOk]) ⟨none⟩ envAllOk
      = (.success, { runOps initialState [Op.ensure ⟨none⟩ envAllOk] with callbacks_ := ⟨none⟩ }) ∧
    ConsoleProcessSocket.port
        (stopServer (runOps initialState [Op.ensure ⟨none⟩ envAllOk]) envNoThrow).2 = 0 := by
  have h := C4_idempotent_port [Op.ensure ⟨none⟩ envAllOk] ⟨none⟩ envAllOk envNoThrow
  exact ⟨h.1 (by decide), h.2.2 (by decide)⟩

/-- Index of the first occurrence of a teardown step in a trace. -/
def firstIdx (t : TeardownStep) (tr : List TeardownStep) : Nat :=
  tr.findIdx (fun s => s == t)

/-- C7 counterexample: in the actual teardown sequence the port reset and
flag clear happen BEFORE the thread join (the join is the last step), so
"the port is reassigned to 0 and the running flag is cleared only after the
background thread has been joined" is false: on a running facade with a
clean teardown, `resetPort` and `clearRunningFlag` precede `joinThread` in
the executed trace. -/
theorem C7_counterexample :
    stopServerTrace stRun envNoThrow
      = [TeardownStep.clearConnections, TeardownStep.wsStop,
         TeardownStep.clearRunningFlag, TeardownStep.resetPort,
         TeardownStep.joinThread] ∧
    firstIdx TeardownStep.resetPort (stopServerTrace stRun envNoThrow)
      < firstIdx TeardownStep.joinThread (stopServerTrace stRun envNoThrow) ∧
    firstIdx TeardownStep.clearRunningFlag (stopServerTrace stRun envNoThrow)
      < firstIdx TeardownStep.joinThread (stopServerTrace stRun envNoThrow) := by
  refine ⟨by decide, by decide, by decide⟩

/-- C7 (amended): in `stopServer`'s teardown the running flag is cleared and
the port reset BEFORE the background thread is joined; the join is the last
teardown step, so the thread has been joined before `stopServer` returns
whenever teardown reaches it.  `stopServer` is idempotent (a no-op success
when not running) and converts any teardown exception into a failure
result. -/
theorem C7_teardown (st : SocketState) (env : StopEnv) :
    (st.serverRunning_ = false → stopServerExec st env = (.success, st, [])) ∧
    (∀ msg, st.serverRunning_ = true → env.wsStopThrows = some msg →
        (stopServer st env).1 = .failure .invalid_argument msg ∧
        (stopServer st env).2.serverRunning_ = true ∧
        (stopServer st env).2.port_ = st.port_) ∧
    (st.serverRunning_ = true → env.wsStopThrows = none →
        stopServerTrace st env
          = [TeardownStep.clearConnections, TeardownStep.wsStop,
             TeardownStep.clearRunningFlag, TeardownStep.resetPort,
             TeardownStep.joinThread] ∧
        (stopServer st env).2.serverRunning_ = false ∧
        (stopServer st env).2.port_ = 0 ∧
        (stopServer st env).2.connections_ = [] ∧
        ((stopServer st env).1 = .success ↔ env.joinThrows = none) ∧
        (∀ msg, env.joinThrows = some msg →
            (stopServer st env).1 = .failure .invalid_argument msg)) := by
  refine ⟨?_, ?_, ?_⟩
  · intro hr
    simp [stopServerExec, hr]
  · intro msg hr hws
    refine ⟨?_, ?_, ?_⟩ <;> simp [stopServer, stopServerExec, hr, hws]
  · intro hr hws
    cases hj : env.joinThrows with
    | some msg =>
        refine ⟨?_, ?_, ?_, ?_, ?_, ?_⟩ <;>
          simp [stopServer, stopServerExec, stopServerTrace, hr, hws, hj]
    | none =>
        refine ⟨?_, ?_, ?_, ?_, ?_, ?_⟩ <;>
          simp [stopServer, stopServerExec, stopServerTrace, hr, hws, hj]

/-- Witness for C7: a clean teardown on the running facade performs the
five steps in source order and ends with a success and port 0; a
not-running facade is a no-op. -/
theorem C7_teardown_witness :
    stopServerExec initialState envNoThrow = (.success, initialState, []) ∧
    (stopServer stRun envNoThrow).2.port_ = 0 ∧
    (stopServer stRun envNoThrow).1 = Result.success := by
  have h0 := (C7_teardown initialState envNoThrow).1 rfl
  have h1 := (C7_teardown stRun envNoThrow).2.2 (by decide) rfl
  exact ⟨h0, h1.2.2.1, h1.2.2.2.2.1.mpr rfl⟩

/-- Key-presence is preserved by `tsSet`. -/
theorem rlookup_tsSet_isSome (m : Registry) (h h2 : Str)
    (d : ConsoleProcessSocketConnectionDetails)
    (hs : (rlookup m h2).isSome) : (rlookup (tsSet m h d) h2).isSome := by
  by_cases he : h2 = h
  · subst he
    simp [rlookup_tsSet_self]
  · rwa [rlookup_tsSet_ne m h h2 d he]

/-- C8: the close-event handler never removes (or changes) any registry
record — the state is returned unchanged, and the close callback is invoked
exactly when one is registered for the resolved handle.  The open handler
and `listen` also never remove a registration (key presence is preserved),
and `sendText`/`onMessage` do not touch the registry at all.  Consequently
a `sendText` for a handle whose record is still registered but whose
physical connection is gone fails via the stale-connection check (the
transport error message), not via the unknown-handle check. -/
theorem C8_close_keeps_record (st : SocketState) (resource h m : Str)
    (cb : ConsoleProcessSocketConnectionCallbacks) (hdl : Nat)
    (env : ConsoleProcessSocket.SendEnv) :
    ((ConsoleProcessSocket.onClose st resource).1 = st) ∧
    (getHandle resource ≠ [] →
      (ConsoleProcessSocket.onClose st resource).2
        = (tsGet st.connections_ (getHandle resource)).connectionCallbacks_.onConnectionClosed.map
            (fun c => .closed c)) ∧
    (∀ h2, (rlookup st.connections_ h2).isSome →
      (rlookup (ConsoleProcessSocket.onOpen st resource hdl).1.connections_ h2).isSome) ∧
    (∀ h2, st.serverRunning_ = true → (rlookup st.connections_ h2).isSome →
      (rlookup (ConsoleProcessSocket.listen st h cb).2.connections_ h2).isSome) ∧
    ((ConsoleProcessSocket.onMessage st resource m).1 = st) ∧
    ((tsGet st.connections_ h).handle_ = h → env.conEc > 0 →
      ConsoleProcessSocket.sendText st h m env
        = (.failure .not_connected env.conEcMsg, none)) := by
  refine ⟨?_, ?_, ?_, ?_, ?_, ?_⟩
  · by_cases hh : getHandle resource = [] <;>
      simp [ConsoleProcessSocket.onClose, hh]
  · intro hh
    simp [ConsoleProcessSocket.onClose, hh]
  · intro h2 hs
    by_cases hh : getHandle resource = []
    · simpa [ConsoleProcessSocket.onOpen, hh] using hs
    · simp only [ConsoleProcessSocket.onOpen, if_neg hh]
      exact rlookup_tsSet_isSome _ _ _ _ hs
  · intro h2 hr hs
    have hr' : ¬st.serverRunning_ = false := by simp [hr]
    simp only [ConsoleProcessSocket.listen, if_neg hr']
    exact rlookup_tsSet_isSome _ _ _ _ hs
  · by_cases hh : getHandle resource = [] <;>
      simp [ConsoleProcessSocket.onMessage, hh]
  · intro hk hc
    simp [ConsoleProcessSocket.sendText, hk, hc]

/-- Witness for C8: closing `abcd`'s connection on the connected facade
leaves the state unchanged and invokes the registered close callback, and a
subsequent `sendText` with a dead connection reference fails with the
transport's stale-connection message, not the unknown-handle message. -/
theorem C8_close_keeps_record_witness :
    (ConsoleProcessSocket.onClose stConn "/terminal/abcd/".toList).1 = stConn ∧
    (ConsoleProcessSocket.onClose stConn "/terminal/abcd/".toList).2
      = some (ConsoleProcessSocket.Event.closed 2) ∧
    ConsoleProcessSocket.sendText stConn sampleHandle "x".toList ⟨2, "gone".toList, 0, []⟩
      = (.failure .not_connected "gone".toList, none) := by
  have h := C8_close_keeps_record stConn "/terminal/abcd/".toList sampleHandle "x".toList
    ⟨none, none, none⟩ 0 ⟨2, "gone".toList, 0, []⟩
  refine ⟨h.1, ?_, h.2.2.2.2.2 (by decide) (by decide)⟩
  have h2 := h.2.1 (by decide)
  rw [h2]
  decide

/-- C9: for every open event, if the handle cannot be resolved from the
request path the state (hence the registry) is completely unchanged and no
callback is invoked; if resolution yields `h`, the record for `h` is
created or updated with the live connection reference and `h`'s
`onConnectionOpened` callback is invoked exactly when one is registered. -/
theorem C9_onOpen_updates (st : SocketState) (resource : Str) (hdl : Nat) :
    (getHandle resource = [] →
      ConsoleProcessSocket.onOpen st resource hdl = (st, none)) ∧
    (getHandle resource ≠ [] →
      (ConsoleProcessSocket.onOpen st resource hdl).1
        = { st with connections_ := tsSet st.connections_ (getHandle resource) ⟨getHandle resource, some hdl, (tsGet st.connections_ (getHandle resource)).connectionCallbacks_⟩ } ∧
      tsGet (ConsoleProcessSocket.onOpen st resource hdl).1.connections_ (getHandle resource)
        = ⟨getHandle resource, some hdl,
           (tsGet st.connections_ (getHandle resource)).connectionCallbacks_⟩ ∧
      (ConsoleProcessSocket.onOpen st resource hdl).2
        = (tsGet st.connections_ (getHandle resource)).connectionCallbacks_.onConnectionOpened.map
            (fun c => .opened c)) := by
  constructor
  · intro hh
    simp [ConsoleProcessSocket.onOpen, hh]
  · intro hh
    refine ⟨?_, ?_, ?_⟩
    · simp [ConsoleProcessSocket.onOpen, hh]
    · simp only [ConsoleProcessSocket.onOpen, if_neg hh]
      simp [tsGet, rlookup_tsSet_self]
    · simp [ConsoleProcessSocket.onOpen, hh]

/-- Witness for C9: an open event for `/terminal/abcd/` on the running
facade (with a pending `listen` registration) records the connection
reference and fires the registered opened callback; an unresolvable path
changes nothing. -/
theorem C9_onOpen_updates_witness :
    ConsoleProcessSocket.onOpen stRun "/".toList 5 = (stRun, none) ∧
    tsGet (ConsoleProcessSocket.onOpen stConn "/terminal/abcd/".toList 5).1.connections_
        (getHandle "/terminal/abcd/".toList)
      = ⟨getHandle "/terminal/abcd/".toList, some 5,
         (tsGet stConn.connections_ (getHandle "/terminal/abcd/".toList)).connectionCallbacks_⟩ ∧
    (ConsoleProcessSocket.onOpen stConn "/terminal/abcd/".toList 5).2
      = some (ConsoleProcessSocket.Event.opened 1) := by
  have h0 := (C9_onOpen_updates stRun "/".toList 5).1 (by decide)
  have h1 := (C9_onOpen_updates stConn "/terminal/abcd/".toList 5).2 (by decide)
  refine ⟨h0, h1.2.1, ?_⟩
  rw [h1.2.2]
  decide

/-- The registry key-consistency invariant: every stored record's handle
field equals its key. -/
def goodRegistry (m : Registry) : Prop :=
  ∀ kv ∈ m, kv.2.handle_ = kv.1

theorem goodRegistry_nil : goodRegistry [] := by
  intro kv hkv
  cases hkv

theorem goodRegistry_lookup (m : Registry) (h : Str)
    (d : ConsoleProcessSocketConnectionDetails)
    (hg : goodRegistry m) (hl : rlookup m h = some d) : d.handle_ = h :=
  hg (h, d) (rlookup_mem m h d hl)

theorem goodRegistry_tsSet (m : Registry) (h : Str)
    (d : ConsoleProcessSocketConnectionDetails)
    (hg : goodRegistry m) (hd : d.handle_ = h) : goodRegistry (tsSet m h d) := by
  intro kv hkv
  rcases mem_tsSet m h d kv hkv with he | hm
  · rw [he]
    exact hd
  · exact hg kv hm

theorem goodRegistry_tsErase (m : Registry) (h : Str)
    (hg : goodRegistry m) : goodRegistry (tsErase m h) :=
  fun kv hkv => hg kv (mem_tsErase m h kv hkv)

/-- The registry reached by any operation from a key-consistent registry is
key-consistent. -/
theorem goodRegistry_applyOp (st : SocketState) (op : Op)
    (hg : goodRegistry st.connections_) : goodRegistry (applyOp st op).connections_ := by
  cases op with
  | ensure cb env =>
      cases hsr : st.serverRunning_ with
      | true =>
          have he : (applyOp st (.ensure cb env)).connections_ = st.connections_ := by
            simp [applyOp, ensureServerRunning, hsr]
          rwa [he]
      | false =>
          cases ho : (bindLoop env.bind env.rands 0 20).outcome with
          | bound p =>
              have he : (applyOp st (.ensure cb env)).connections_ = st.connections_ := by
                simp [applyOp, ensureServerRunning, hsr, ho]
              rwa [he]
          | fatalErr msg =>
              have he : (applyOp st (.ensure cb env)).connections_ = st.connections_ := by
                simp [applyOp, ensureServerRunning, hsr, ho]
              rwa [he]
          | exhausted =>
              have he : (applyOp st (.ensure cb env)).connections_ = st.connections_ := by
                simp [applyOp, ensureServerRunning, hsr, ho]
              rwa [he]
  | stopSrv env =>
      cases hsr : st.serverRunning_ with
      | true =>
          cases hws : env.wsStopThrows with
          | some msg =>
              have he : (applyOp st (.stopSrv env)).connections_ = [] := by
                simp [applyOp, stopServer, stopServerExec, hsr, hws]
              rw [he]
              exact goodRegistry_nil
          | none =>
              cases hj : env.joinThrows with
              | some msg =>
                  have he : (applyOp st (.stopSrv env)).connections_ = [] := by
                    simp [applyOp, stopServer, stopServerExec, hsr, hws, hj]
                  rw [he]
                  exact goodRegistry_nil
              | none =>
                  have he : (applyOp st (.stopSrv env)).connections_ = [] := by
                    simp [applyOp, stopServer, stopServerExec, hsr, hws, hj]
                  rw [he]
                  exact goodRegistry_nil
      | false =>
          have he : (applyOp st (.stopSrv env)).connections_ = st.connections_ := by
            simp [applyOp, stopServer, stopServerExec, hsr]
          rwa [he]
  | listenOp h cb =>
      cases hsr : st.serverRunning_ with
      | false =>
          have he : (applyOp st (.listenOp h cb)).connections_ = st.connections_ := by
            simp [applyOp, ConsoleProcessSocket.listen, hsr]
          rwa [he]
      | true =>
          have hr' : ¬st.serverRunning_ = false := by simp [hsr]
          have he : (applyOp st (.listenOp h cb)).connections_
              = tsSet st.connections_ h ⟨h, (tsGet st.connections_ h).hdl_, cb⟩ := by
            simp [applyOp, ConsoleProcessSocket.listen, hr']
          rw [he]
          exact goodRegistry_tsSet _ _ _ hg rfl
  | stopOne h =>
      by_cases hu : (tsGet st.connections_ h).handle_ ≠ h
      · have he : (applyOp st (.stopOne h)).connections_ = st.connections_ := by
          simp [applyOp, ConsoleProcessSocket.stop, hu]
        rwa [he]
      · have he : (applyOp st (.stopOne h)).connections_ = tsErase st.connections_ h := by
          simp [applyOp, ConsoleProcessSocket.stop, hu]
        rw [he]
        exact goodRegistry_tsErase _ _ hg
  | stopAllOp =>
      have he : (applyOp st .stopAllOp).connections_ = [] := rfl
      rw [he]
      exact goodRegistry_nil
  | sendTextOp h m env => exact hg
  | openEv r hdl =>
      by_cases hh : getHandle r = []
      · have he : (applyOp st (.openEv r hdl)).connections_ = st.connections_ := by
          simp [applyOp, ConsoleProcessSocket.onOpen, hh]
        rwa [he]
      · have he : (applyOp st (.openEv r hdl)).connections_
            = tsSet st.connections_ (getHandle r)
                ⟨getHandle r, some hdl, (tsGet st.connections_ (getHandle r)).connectionCallbacks_⟩ := by
          simp [applyOp, ConsoleProcessSocket.onOpen, hh]
        rw [he]
        exact goodRegistry_tsSet _ _ _ hg rfl
  | messageEv r m =>
      have he : (applyOp st (.messageEv r m)).connections_ = st.connections_ := by
        by_cases hh : getHandle r = [] <;> simp [applyOp, ConsoleProcessSocket.onMessage, hh]
      rwa [he]
  | closeEv r =>
      have he : (applyOp st (.closeEv r)).connections_ = st.connections_ := by
        by_cases hh : getHandle r = [] <;> simp [applyOp, ConsoleProcessSocket.onClose, hh]
      rwa [he]

/-- C10: every operation preserves the invariant that each registered
record's handle field equals its key; a lookup of an absent handle yields
the default record whose handle field is the empty string; and, under the
invariant, the equality test between the stored handle field and the
queried handle — the exact mechanism `stop` and `sendText` use — succeeds
precisely for registered handles (or the empty string, which matches the
default record), with `stop`'s failure equivalent to the test failing and
`sendText` failing with the unknown-handle error whenever the test fails. -/
theorem C10_registry_invariant (st : SocketState) (op : Op) (m : Registry)
    (h hm : Str) (env : ConsoleProcessSocket.SendEnv)
    (hg : goodRegistry st.connections_) (hgm : goodRegistry m) :
    goodRegistry (applyOp st op).connections_ ∧
    (rlookup m h = none → tsGet m h = defaultDetails) ∧
    defaultDetails.handle_ = [] ∧
    ((tsGet m h).handle_ = h ↔ (rlookup m h).isSome ∨ h = []) ∧
    ((tsGet st.connections_ h).handle_ ≠ h ↔
      (ConsoleProcessSocket.stop st h).1 = .failure .invalid_argument h) ∧
    ((tsGet st.connections_ h).handle_ ≠ h →
      (ConsoleProcessSocket.sendText st h hm env).1
        = .failure .not_connected (ConsoleProcessSocket.unknownMsg h)) := by
  refine ⟨goodRegistry_applyOp st op hg, ?_, rfl, ?_, ?_, ?_⟩
  · intro hn
    simp [tsGet, hn]
  · constructor
    · intro he
      cases hl : rlookup m h with
      | none =>
          right
          rw [tsGet, hl] at he
          exact he.symm
      | some d => left; simp [hl]
    · intro hor
      cases hl : rlookup m h with
      | none =>
          rcases hor with hs | he
          · rw [hl] at hs
            cases hs
          · rw [tsGet, hl, he]
            rfl
      | some d =>
          rw [tsGet, hl]
          exact goodRegistry_lookup m h d hgm hl
  · constructor
    · intro hu
      simp [ConsoleProcessSocket.stop, hu]
    · intro hf
      by_cases hu : (tsGet st.connections_ h).handle_ ≠ h
      · exact hu
      · rw [show (ConsoleProcessSocket.stop st h).1 = Result.success by
            simp [ConsoleProcessSocket.stop, hu]] at hf
        exact Result.noConfusion hf
  · intro hu
    simp [ConsoleProcessSocket.sendText, hu]

/-- Witness for C10: on the connected facade's registry the mechanism test
for `abcd` succeeds (it is registered), an open event preserves the
invariant, and an absent lookup yields the default record. -/
theorem C10_registry_invariant_witness :
    goodRegistry (applyOp stConn (Op.openEv "/terminal/efgh/".toList 9)).connections_ ∧
    ((tsGet stConn.connections_ sampleHandle).handle_ = sampleHandle ↔
      (rlookup stConn.connections_ sampleHandle).isSome ∨ sampleHandle = []) ∧
    tsGet [] "zzzz".toList = defaultDetails := by
  have hgc : goodRegistry stConn.connections_ := by
    intro kv hkv
    simp only [stConn, List.mem_singleton] at hkv
    subst hkv
    rfl
  have h := C10_registry_invariant stConn (Op.openEv "/terminal/efgh/".toList 9)
    stConn.connections_ sampleHandle [] ⟨0, [], 0, []⟩ hgc hgc
  have h2 := C10_registry_invariant stConn (Op.openEv "/terminal/efgh/".toList 9)
    ([] : Registry) "zzzz".toList [] ⟨0, [], 0, []⟩ hgc goodRegistry_nil
  exact ⟨h.1, h.2.2.2.1, h2.2.1 rfl⟩
